import Mathlib

/-
Verification of the viewer lifecycle controller of the
high-performance-gaussian-splatting repository.

The embedded code is `src/components/GaussianSplatViewer.tsx` (the
AbortController-based controller, which the spec adopts as normative),
`src/App.tsx` (the application shell with its memoized `models` list) and
the static model catalog.  The external renderer
(`@mkkellogg/gaussian-splats-3d`) is an opaque collaborator: its calls
appear as abstract events, and its behaviour (progress callbacks, load
success or failure, disposal rejections) is an environment parameter.

Concurrency model, following the spec's own scheduling model: a single
cooperative event loop.  The effect body runs synchronously up to the
first `await`; the in-flight load suspends; progress callbacks, the
post-load continuation, animation frames, and the effect cleanup are
separate event-loop tasks.  The abort flag is set exactly once, by the
cleanup task, and is read at an increasing sequence of read points
(`hitBy t i` = flag observed true at point `i` when the teardown task was
scheduled at time `t`).
-/

namespace SplatViewer

/-! ## Data model: SplatModel (GaussianSplatViewer.tsx lines 9-15) and
PerformanceStats (lines 24-28).  Numeric fields are rationals standing
in for JS numbers. -/

structure SplatModel where
  name : String
  url : String
  position : Option (ℚ × ℚ × ℚ) := none
  rotation : Option (ℚ × ℚ × ℚ × String) := none
  scale : Option (ℚ × ℚ × ℚ) := none
deriving DecidableEq

structure PerformanceStats where
  fps : ℤ
  splatCount : ℕ
  loadTime : ℕ
deriving DecidableEq

/-! ## Frame-rate sampler: `updateFPS` (GaussianSplatViewer.tsx lines 45-63).

The mutable cells it touches are `frameCountRef`, `lastTimeRef` and the
`stats` React state; they form `FPSState`.  `performance.now()` is the
`now` argument, in milliseconds (natural numbers; the claims only
concern elapsed times of at least one millisecond). -/

structure FPSState where
  frameCount : ℕ
  lastTime : ℕ
  stats : Option PerformanceStats
deriving DecidableEq

/-- `Math.round (a / b)` on nonnegative operands, `b ≠ 0`:
round-half-up, computed as `⌊(2a + b) / (2b)⌋` in natural division. -/
def jsRound (a b : ℕ) : ℕ :=
  (2 * a + b) / (2 * b)

/-- `jsRound` agrees with rounding the exact rational quotient
(`Math.round` rounds half away from zero, which on nonnegative input is
round-half-up, exactly Mathlib's `round`). -/
theorem jsRound_eq_round (a b : ℕ) (hb : 0 < b) :
    (jsRound a b : ℤ) = round ((a : ℚ) / (b : ℚ)) := by
  rw [round_eq, jsRound]
  have h2b : ((2 * b : ℕ) : ℚ) ≠ 0 := by
    have : (0 : ℕ) < 2 * b := by omega
    exact_mod_cast this.ne'
  have hx : (a : ℚ) / (b : ℚ) + 1 / 2 = ((2 * a + b : ℕ) : ℚ) / ((2 * b : ℕ) : ℚ) := by
    push_cast
    field_simp
    ring
  rw [hx, Rat.floor_natCast_div_natCast]
  exact_mod_cast rfl

/-- Direct translation of `updateFPS`: increment the frame counter; on
the very first call only record the timestamp; afterwards, once at least
1000 ms elapsed, write the rounded rate into the fps field of the
published stats (the functional `setStats` updater keeps `null` stats
`null`) and reset counter and timestamp; otherwise change nothing else. -/
def updateFPS (now : ℕ) (s : FPSState) : FPSState :=
  let fc := s.frameCount + 1
  if s.lastTime = 0 then
    { s with frameCount := fc, lastTime := now }
  else
    let elapsed := now - s.lastTime
    if 1000 ≤ elapsed then
      { frameCount := 0, lastTime := now,
        stats := s.stats.map fun p => { p with fps := (jsRound (fc * 1000) elapsed : ℤ) } }
    else
      { s with frameCount := fc }

/-- C8: the frame-rate sampler increments its counter on every sampled
frame (the rate below is computed from the incremented count); whenever
at least 1000 ms have elapsed since the last sample point it publishes
`round(count * 1000 / elapsed)` as the current fps (through the
functional stats updater) and resets the counter to zero and the
sample-point timestamp to `now`; with fewer than 1000 ms elapsed it
publishes nothing and resets nothing. -/
theorem updateFPS_sampling_contract (now : ℕ) (s : FPSState) (h0 : s.lastTime ≠ 0) :
    (1000 ≤ now - s.lastTime →
      (updateFPS now s).stats =
        s.stats.map (fun p =>
          { p with fps := (jsRound ((s.frameCount + 1) * 1000) (now - s.lastTime) : ℤ) }) ∧
      (∀ p, s.stats = some p →
        (updateFPS now s).stats =
          some { p with fps := (jsRound ((s.frameCount + 1) * 1000) (now - s.lastTime) : ℤ) }) ∧
      (updateFPS now s).frameCount = 0 ∧ (updateFPS now s).lastTime = now) ∧
    (now - s.lastTime < 1000 →
      (updateFPS now s).stats = s.stats ∧
      (updateFPS now s).frameCount = s.frameCount + 1 ∧
      (updateFPS now s).lastTime = s.lastTime) := by
  constructor
  · intro h
    refine ⟨?_, ?_, ?_, ?_⟩ <;>
      simp [updateFPS, h0, h]
    intro p hp
    simp [hp]
  · intro h
    have h' : ¬ (1000 ≤ now - s.lastTime) := by omega
    refine ⟨?_, ?_, ?_⟩ <;> simp [updateFPS, h0, h']

/-- Witness for C8 at a concrete state: 60 frames over 1000 ms publish
fps 60 and reset the counter and timestamp. -/
theorem updateFPS_sampling_contract_witness :
    (updateFPS 3000 ⟨59, 2000, some ⟨0, 7, 42⟩⟩).stats = some ⟨60, 7, 42⟩ ∧
    (updateFPS 3000 ⟨59, 2000, some ⟨0, 7, 42⟩⟩).frameCount = 0 ∧
    (updateFPS 3000 ⟨59, 2000, some ⟨0, 7, 42⟩⟩).lastTime = 3000 := by
  have h := updateFPS_sampling_contract 3000 ⟨59, 2000, some ⟨0, 7, 42⟩⟩ (by decide)
  have h1 := (h.1 (by decide)).2.1 ⟨0, 7, 42⟩ rfl
  refine ⟨?_, (h.1 (by decide)).2.2.1, (h.1 (by decide)).2.2.2⟩
  rw [h1]
  norm_num [jsRound]

/-- C10: a sampler tick never changes the splat count or the load time of
the published stats, and when no stats have been published yet
(`stats = null`, load not complete) it publishes nothing: stats stay
`null`. -/
theorem updateFPS_preserves_other_stats (now : ℕ) (s : FPSState) :
    (updateFPS now s).stats.map (fun p => (p.splatCount, p.loadTime)) =
      s.stats.map (fun p => (p.splatCount, p.loadTime)) ∧
    (s.stats = none → (updateFPS now s).stats = none) := by
  constructor
  · by_cases h0 : s.lastTime = 0
    · simp [updateFPS, h0]
    · by_cases h : 1000 ≤ now - s.lastTime
      · cases hs : s.stats <;> simp [updateFPS, h0, h, hs]
      · simp [updateFPS, h0, h]
  · intro hs
    by_cases h0 : s.lastTime = 0
    · simp [updateFPS, h0, hs]
    · by_cases h : 1000 ≤ now - s.lastTime <;> simp [updateFPS, h0, h, hs]

/-- Witness for C10: a tick on a state with `null` stats leaves them
`null`. -/
theorem updateFPS_preserves_other_stats_witness :
    (updateFPS 5000 ⟨10, 2000, none⟩).stats = none :=
  (updateFPS_preserves_other_stats 5000 ⟨10, 2000, none⟩).2 rfl

/-! ## Load session: `initViewer` and the init effect
(GaussianSplatViewer.tsx lines 65-227).

Observable events of one session, in event-loop order.  `construct` is
`new GaussianSplats3D.Viewer(...)`, `progress q` a forwarded
`onProgress(q)` call, `statsSet` the `setStats` publication, `loadCb` /
`errorCb` the `onLoad` / `onError` callbacks, `startEv` `viewer.start()`,
`publishEv` / `unpublishEv` writes of `viewerRef.current`, `abortEv` the
`abortController.abort()` of the cleanup, `disposeEv` a
`viewer.dispose()` call, `fpsTick` one run of the `animate` frame
sampler. -/

inductive Ev where
  | construct
  | progress (q : ℚ)
  | statsSet
  | loadCb
  | errorCb
  | startEv
  | publishEv
  | unpublishEv
  | abortEv
  | disposeEv
  | fpsTick
deriving DecidableEq

/-- Environment behaviour of the external renderer during one session:
whether the constructor succeeds, the sequence of `percentComplete`
values the library delivers to the `addSplatScenes` progress callback,
and whether the load promise resolves (`loadOk`) or rejects. -/
structure SessEnv where
  constructOk : Bool
  progress : List ℚ
  loadOk : Bool

/-- The cooperative abort flag: `t = some k` means the cleanup task runs
between read points `k-1` and `k` (reads from point `k` on see the flag);
`t = none` means no teardown during the observed trace. -/
def hitBy : Option ℕ → ℕ → Bool
  | none, _ => false
  | some k, i => decide (k ≤ i)

theorem hitBy_mono {t : Option ℕ} {i j : ℕ} (hij : i ≤ j)
    (h : hitBy t i = true) : hitBy t j = true := by
  cases t with
  | none => simp [hitBy] at h
  | some k => simp [hitBy] at h ⊢; omega

theorem hitBy_anti {t : Option ℕ} {i j : ℕ} (hij : i ≤ j)
    (h : hitBy t j = false) : hitBy t i = false := by
  cases ht : hitBy t i with
  | false => rfl
  | true => rw [hitBy_mono hij ht] at h; cases h

/-- The progress callback chain (lines 121-126): tick `i` is read point
`i`; the handler forwards `percentComplete` to `onProgress` only while
the token is unaborted. -/
def progressPhase (t : Option ℕ) : ℕ → List ℚ → List Ev
  | _, [] => []
  | i, q :: qs =>
    (if hitBy t i then [] else [Ev.progress q]) ++ progressPhase t (i + 1) qs

/-- The `animate` requestAnimationFrame chain (lines 166-172): frame `j`
after publication is read point `i + j`; a frame samples and reschedules
only while the handle is still published and the token unaborted, and
stops permanently otherwise. -/
def animatePhase (t : Option ℕ) : ℕ → ℕ → List Ev
  | _, 0 => []
  | i, fuel + 1 =>
    if hitBy t i then [] else Ev.fpsTick :: animatePhase t (i + 1) fuel

/-- The cleanup task (lines 203-226), abridged to its event footprint:
abort the token first, then, if a handle is published, unpublish it and
call its `dispose`. -/
def teardownEvents (published : Bool) : List Ev :=
  Ev.abortEv :: (if published then [Ev.unpublishEv, Ev.disposeEv] else [])

/-- Trace of one `initViewer` session (lines 73-198) under environment
`env`, teardown time `t`, and `fuel` observed animation frames.

Construction happens in the synchronous effect block, so a constructor
failure is caught with the token necessarily unaborted (`onError`, no
handle to dispose); the checkpoint right after construction (line 103)
reads the flag inside the same synchronous block that created the
controller and therefore never fires.  The load suspends: its `p`
progress ticks are read points `0..p-1` and the continuation —
checkpoint line 130 on success, the catch block on rejection — is read
point `p`.  A continuation that finds the flag set disposes the handle
and stops (for a rejected load, the catch disposes the never-published
handle either way, and reports `onError` only when unaborted).  An
unaborted successful continuation publishes stats, fires `onLoad`,
passes the line-160 checkpoint in the same block, starts the viewer,
publishes it, and schedules the sampler at read points `p+1, p+2, ...`;
a teardown arriving later aborts, unpublishes and disposes the handle. -/
def initViewerTrace (env : SessEnv) (t : Option ℕ) (fuel : ℕ) : List Ev :=
  if env.constructOk = false then
    [Ev.errorCb]
  else
    let p := env.progress.length
    Ev.construct ::
      if env.loadOk then
        if hitBy t p then
          progressPhase t 0 env.progress ++ teardownEvents false ++ [Ev.disposeEv]
        else
          progressPhase t 0 env.progress ++
            [Ev.statsSet, Ev.loadCb, Ev.startEv, Ev.publishEv] ++
            animatePhase t (p + 1) fuel ++
            (match t with
             | some _ => teardownEvents true
             | none => [])
      else
        if hitBy t p then
          progressPhase t 0 env.progress ++ teardownEvents false ++ [Ev.disposeEv]
        else
          progressPhase t 0 env.progress ++ [Ev.errorCb, Ev.disposeEv]

/-- The init effect body (lines 65-66): with an absent container or an
empty `models` list it returns before doing anything, otherwise it runs
`initViewer`. -/
def initEffectRun (containerPresent : Bool) (models : List SplatModel)
    (env : SessEnv) (t : Option ℕ) (fuel : ℕ) : List Ev :=
  if containerPresent = false ∨ models.length = 0 then []
  else initViewerTrace env t fuel

/-! ### Helper lemmas about the phases -/

theorem progressPhase_eq_nil {t : Option ℕ} {i : ℕ} {qs : List ℚ}
    (h : hitBy t i = true) : progressPhase t i qs = [] := by
  induction qs generalizing i with
  | nil => rfl
  | cons q qs ih =>
    simp [progressPhase, h, ih (hitBy_mono (Nat.le_succ i) h)]

theorem mem_progressPhase {t : Option ℕ} {i : ℕ} {qs : List ℚ} {e : Ev}
    (h : e ∈ progressPhase t i qs) : ∃ q, e = Ev.progress q := by
  induction qs generalizing i with
  | nil => simp [progressPhase] at h
  | cons q qs ih =>
    simp only [progressPhase, List.mem_append] at h
    rcases h with h | h
    · rcases Bool.eq_false_or_eq_true (hitBy t i) with hb | hb <;> simp [hb] at h
      exact ⟨q, h⟩
    · exact ih h

theorem mem_animatePhase {t : Option ℕ} {i fuel : ℕ} {e : Ev}
    (h : e ∈ animatePhase t i fuel) : e = Ev.fpsTick := by
  induction fuel generalizing i with
  | zero => simp [animatePhase] at h
  | succ fuel ih =>
    simp only [animatePhase] at h
    rcases Bool.eq_false_or_eq_true (hitBy t i) with hb | hb <;> simp [hb] at h
    rcases h with h | h
    · exact h
    · exact ih h

/-- The values forwarded to `onProgress`, extracted from a trace. -/
def reportedValues (tr : List Ev) : List ℚ :=
  tr.filterMap fun e =>
    match e with
    | Ev.progress q => some q
    | _ => none

theorem reportedValues_append (l₁ l₂ : List Ev) :
    reportedValues (l₁ ++ l₂) = reportedValues l₁ ++ reportedValues l₂ := by
  simp [reportedValues]

theorem reportedValues_map_progress (qs : List ℚ) :
    reportedValues (qs.map Ev.progress) = qs := by
  induction qs with
  | nil => rfl
  | cons q qs ih => simp [reportedValues] at ih ⊢; exact ih

/-- The forwarded progress values are an initial segment of what the
library delivered: reporting stops at the teardown and never reorders. -/
theorem reportedValues_progressPhase (t : Option ℕ) (qs : List ℚ) (i : ℕ) :
    ∃ n, reportedValues (progressPhase t i qs) = qs.take n := by
  induction qs generalizing i with
  | nil => exact ⟨0, rfl⟩
  | cons q qs ih =>
    cases hb : hitBy t i with
    | true =>
      refine ⟨0, ?_⟩
      rw [progressPhase_eq_nil hb]
      rfl
    | false =>
      obtain ⟨n, hn⟩ := ih (i + 1)
      refine ⟨n + 1, ?_⟩
      have h1 : progressPhase t i (q :: qs) = Ev.progress q :: progressPhase t (i + 1) qs := by
        simp [progressPhase, hb]
      have h2 : reportedValues (Ev.progress q :: progressPhase t (i + 1) qs) =
          q :: reportedValues (progressPhase t (i + 1) qs) := by
        simp [reportedValues]
      rw [h1, h2, hn]
      simp

/-- With no teardown before read point `i + |qs|`, every progress value
is forwarded. -/
theorem progressPhase_all (t : Option ℕ) (qs : List ℚ) (i : ℕ)
    (h : hitBy t (i + qs.length) = false) :
    progressPhase t i qs = qs.map Ev.progress := by
  induction qs generalizing i with
  | nil => rfl
  | cons q qs ih =>
    have hi : hitBy t i = false := hitBy_anti (by simp) h
    have hrec := ih (i + 1) (by rw [show i + 1 + qs.length = i + (q :: qs).length by simp; omega]; exact h)
    simp [progressPhase, hi, hrec]

theorem not_mem_progressPhase {t : Option ℕ} {i : ℕ} {qs : List ℚ} {e : Ev}
    (h : ∀ q, e ≠ Ev.progress q) : e ∉ progressPhase t i qs := by
  intro hm
  obtain ⟨q, rfl⟩ := mem_progressPhase hm
  exact h q rfl

theorem not_mem_animatePhase {t : Option ℕ} {i fuel : ℕ} {e : Ev}
    (h : e ≠ Ev.fpsTick) : e ∉ animatePhase t i fuel := by
  intro hm
  exact h (mem_animatePhase hm)

theorem reportedValues_eq_nil {l : List Ev} (h : ∀ q, Ev.progress q ∉ l) :
    reportedValues l = [] := by
  induction l with
  | nil => rfl
  | cons e l ih =>
    have he : ∀ q, e ≠ Ev.progress q := by
      intro q hq
      exact h q (hq ▸ List.mem_cons_self e l)
    have hl : ∀ q, Ev.progress q ∉ l := fun q hq => h q (List.mem_cons_of_mem e hq)
    cases e <;> simp [reportedValues] at ih ⊢ <;> try exact ih hl
    exact absurd rfl (he _)

theorem mem_of_getLast?_eq {l : List ℚ} {a : ℚ} (h : l.getLast? = some a) : a ∈ l := by
  induction l with
  | nil => cases h
  | cons x xs ih =>
    cases xs with
    | nil =>
      simp [List.getLast?] at h
      simp [h]
    | cons y ys =>
      rw [List.getLast?_cons_cons] at h
      exact List.mem_cons_of_mem _ (ih h)

/-- C9: when the `models` list is empty or the container is absent, the
(re)initialization effect returns without opening a session: no
construction, no callbacks, no events at all. -/
theorem init_effect_guard_noop (cp : Bool) (models : List SplatModel)
    (env : SessEnv) (t : Option ℕ) (fuel : ℕ)
    (h : cp = false ∨ models.length = 0) :
    initEffectRun cp models env t fuel = [] := by
  rcases h with h | h <;> simp [initEffectRun, h]

/-- Witness for C9: an empty model list produces an empty event trace. -/
theorem init_effect_guard_noop_witness :
    initEffectRun true [] ⟨true, [], true⟩ none 0 = [] :=
  init_effect_guard_noop true [] ⟨true, [], true⟩ none 0 (Or.inr rfl)

/-- C2: a session whose teardown arrives between two checkpoints of the
initialization protocol (read point `k` at or before the post-load
checkpoint, `k ≤ p`) disposes its constructed handle exactly once, never
fires `onLoad` or `onError`, and never runs a frame-sampling iteration. -/
theorem cancelled_session_safety (env : SessEnv) (k fuel : ℕ)
    (hc : env.constructOk = true) (hk : k ≤ env.progress.length) :
    (initViewerTrace env (some k) fuel).count Ev.disposeEv = 1 ∧
    Ev.loadCb ∉ initViewerTrace env (some k) fuel ∧
    Ev.errorCb ∉ initViewerTrace env (some k) fuel ∧
    Ev.fpsTick ∉ initViewerTrace env (some k) fuel := by
  have hp : hitBy (some k) env.progress.length = true := by
    simp [hitBy]; omega
  have htr : initViewerTrace env (some k) fuel =
      Ev.construct :: (progressPhase (some k) 0 env.progress ++
        [Ev.abortEv] ++ [Ev.disposeEv]) := by
    by_cases hl : env.loadOk <;>
      simp [initViewerTrace, hc, hl, hp, teardownEvents]
  rw [htr]
  refine ⟨?_, ?_, ?_, ?_⟩
  · have hd : Ev.disposeEv ∉ progressPhase (some k) 0 env.progress :=
      not_mem_progressPhase (by intro q hq; simp at hq)
    simp [List.count_cons, List.count_append, List.count_eq_zero.mpr hd]
  · have hmem : Ev.loadCb ∉ progressPhase (some k) 0 env.progress :=
      not_mem_progressPhase (by intro q hq; simp at hq)
    simp [hmem]
  · have hmem : Ev.errorCb ∉ progressPhase (some k) 0 env.progress :=
      not_mem_progressPhase (by intro q hq; simp at hq)
    simp [hmem]
  · have hmem : Ev.fpsTick ∉ progressPhase (some k) 0 env.progress :=
      not_mem_progressPhase (by intro q hq; simp at hq)
    simp [hmem]

/-- Witness for C2: teardown at read point 1 of a two-tick load. -/
theorem cancelled_session_safety_witness :
    (initViewerTrace ⟨true, [30, 60], true⟩ (some 1) 2).count Ev.disposeEv = 1 ∧
    Ev.loadCb ∉ initViewerTrace ⟨true, [30, 60], true⟩ (some 1) 2 ∧
    Ev.errorCb ∉ initViewerTrace ⟨true, [30, 60], true⟩ (some 1) 2 ∧
    Ev.fpsTick ∉ initViewerTrace ⟨true, [30, 60], true⟩ (some 1) 2 :=
  cancelled_session_safety ⟨true, [30, 60], true⟩ 1 2 rfl (by decide)

/-- C5: a failure not caused by cancellation — a constructor throw
(necessarily unaborted, being in the synchronous block) or a load
rejection whose catch runs with the token unaborted — fires `onError`
exactly once, never starts nor publishes a handle, and still disposes
the handle when one was constructed (it is never the published one). -/
theorem failure_reports_once_and_disposes (env : SessEnv) (t : Option ℕ) (fuel : ℕ)
    (h : env.constructOk = false ∨
      (env.loadOk = false ∧ hitBy t env.progress.length = false)) :
    (initViewerTrace env t fuel).count Ev.errorCb = 1 ∧
    Ev.startEv ∉ initViewerTrace env t fuel ∧
    Ev.publishEv ∉ initViewerTrace env t fuel ∧
    (initViewerTrace env t fuel).count Ev.disposeEv =
      (if env.constructOk then 1 else 0) := by
  by_cases hc : env.constructOk
  · have hlf : env.loadOk = false ∧ hitBy t env.progress.length = false := by
      rcases h with h | h
      · rw [hc] at h; cases h
      · exact h
    have htr : initViewerTrace env t fuel =
        Ev.construct :: (progressPhase t 0 env.progress ++ [Ev.errorCb, Ev.disposeEv]) := by
      simp [initViewerTrace, hc, hlf.1, hlf.2]
    rw [htr]
    refine ⟨?_, ?_, ?_, ?_⟩
    · have he : Ev.errorCb ∉ progressPhase t 0 env.progress :=
        not_mem_progressPhase (by intro q hq; simp at hq)
      simp [List.count_cons, List.count_append, List.count_eq_zero.mpr he]
    · have hmem : Ev.startEv ∉ progressPhase t 0 env.progress :=
        not_mem_progressPhase (by intro q hq; simp at hq)
      simp [hmem]
    · have hmem : Ev.publishEv ∉ progressPhase t 0 env.progress :=
        not_mem_progressPhase (by intro q hq; simp at hq)
      simp [hmem]
    · have hd : Ev.disposeEv ∉ progressPhase t 0 env.progress :=
        not_mem_progressPhase (by intro q hq; simp at hq)
      simp [hc, List.count_cons, List.count_append, List.count_eq_zero.mpr hd]
  · have hc' : env.constructOk = false := by
      cases hcc : env.constructOk
      · rfl
      · exact absurd hcc hc
    have htr : initViewerTrace env t fuel = [Ev.errorCb] := by
      simp [initViewerTrace, hc']
    rw [htr]
    simp [hc', List.count_cons]

/-- Witness for C5: an uncancelled load rejection after one progress
tick reports once and disposes the constructed handle. -/
theorem failure_reports_once_and_disposes_witness :
    (initViewerTrace ⟨true, [10], false⟩ none 0).count Ev.errorCb = 1 ∧
    Ev.startEv ∉ initViewerTrace ⟨true, [10], false⟩ none 0 ∧
    Ev.publishEv ∉ initViewerTrace ⟨true, [10], false⟩ none 0 ∧
    (initViewerTrace ⟨true, [10], false⟩ none 0).count Ev.disposeEv =
      (if (true : Bool) then 1 else 0) :=
  failure_reports_once_and_disposes ⟨true, [10], false⟩ none 0 (Or.inr ⟨rfl, rfl⟩)

theorem reportedValues_construct_cons (l : List Ev) :
    reportedValues (Ev.construct :: l) = reportedValues l := rfl

/-- Shape of an uncancelled successful session: all progress forwarded,
then stats publication, `onLoad`, start and publication, then a
progress-free remainder (sampler frames and a possible later teardown). -/
theorem success_trace_shape (env : SessEnv) (t : Option ℕ) (fuel : ℕ)
    (hc : env.constructOk = true) (hl : env.loadOk = true)
    (hb : hitBy t env.progress.length = false) :
    ∃ rest : List Ev,
      initViewerTrace env t fuel =
        Ev.construct :: (env.progress.map Ev.progress ++
          [Ev.statsSet, Ev.loadCb, Ev.startEv, Ev.publishEv] ++ rest) ∧
      reportedValues rest = [] := by
  have hall : progressPhase t 0 env.progress = env.progress.map Ev.progress :=
    progressPhase_all t env.progress 0 (by simpa using hb)
  have hanim : reportedValues (animatePhase t (env.progress.length + 1) fuel) = [] :=
    reportedValues_eq_nil (by
      intro q hq
      have h2 := mem_animatePhase hq
      simp at h2)
  rcases t with _ | k
  · refine ⟨animatePhase none (env.progress.length + 1) fuel, ?_, hanim⟩
    simp only [initViewerTrace, hc] at *
    simp [initViewerTrace, hl, hb, hall, List.append_assoc]
  · refine ⟨animatePhase (some k) (env.progress.length + 1) fuel ++
      teardownEvents true, ?_, ?_⟩
    · simp [initViewerTrace, hc, hl, hb, hall, List.append_assoc]
    · rw [reportedValues_append, hanim]
      simp [teardownEvents, reportedValues]

/-- C7: under the external renderer's progress contract (the library
delivers a non-decreasing sequence of percentages ending at 100 before
the load promise resolves), the values a session forwards to
`onProgress` are non-decreasing; an uncancelled session forwards the
whole sequence — so 100 is reported strictly before `onLoad` fires —
and a session cancelled before the post-load checkpoint never fires
`onLoad`. -/
theorem progress_monotone_and_complete_before_load (env : SessEnv) (t : Option ℕ)
    (fuel : ℕ) (hc : env.constructOk = true) (hl : env.loadOk = true)
    (hmono : env.progress.Pairwise (· ≤ ·))
    (hlast : env.progress.getLast? = some 100) :
    (reportedValues (initViewerTrace env t fuel)).Pairwise (· ≤ ·) ∧
    (hitBy t env.progress.length = false →
      reportedValues (initViewerTrace env t fuel) = env.progress ∧
      ∃ l₁ l₂, initViewerTrace env t fuel = l₁ ++ Ev.loadCb :: l₂ ∧
        Ev.progress 100 ∈ l₁) ∧
    (hitBy t env.progress.length = true →
      Ev.loadCb ∉ initViewerTrace env t fuel) := by
  rcases Bool.eq_false_or_eq_true (hitBy t env.progress.length) with hb | hb
  case inl =>
    have htr : initViewerTrace env t fuel =
        Ev.construct :: (progressPhase t 0 env.progress ++
          [Ev.abortEv] ++ [Ev.disposeEv]) := by
      simp [initViewerTrace, hc, hl, hb, teardownEvents]
    refine ⟨?_, ?_, ?_⟩
    · have hrep : reportedValues (initViewerTrace env t fuel) =
          reportedValues (progressPhase t 0 env.progress) := by
        rw [htr, reportedValues_construct_cons, reportedValues_append,
          reportedValues_append]
        simp [reportedValues]
      obtain ⟨n, hn⟩ := reportedValues_progressPhase t env.progress 0
      rw [hrep, hn]
      exact hmono.sublist (List.take_sublist n env.progress)
    · intro hb'
      rw [hb'] at hb
      simp at hb
    · intro _
      rw [htr]
      have hmem : Ev.loadCb ∉ progressPhase t 0 env.progress :=
        not_mem_progressPhase (by intro q hq; simp at hq)
      simp [hmem]
  case inr =>
    obtain ⟨rest, htr, hrest⟩ := success_trace_shape env t fuel hc hl hb
    have hrep : reportedValues (initViewerTrace env t fuel) = env.progress := by
      rw [htr, reportedValues_construct_cons, reportedValues_append,
        reportedValues_append, reportedValues_map_progress, hrest]
      simp [reportedValues]
    refine ⟨?_, ?_, ?_⟩
    · rw [hrep]
      exact hmono
    · intro _
      refine ⟨hrep, Ev.construct :: env.progress.map Ev.progress ++ [Ev.statsSet],
        Ev.startEv :: Ev.publishEv :: rest, ?_, ?_⟩
      · rw [htr]
        simp
      · have h100 : (100 : ℚ) ∈ env.progress := mem_of_getLast?_eq hlast
        exact List.mem_cons_of_mem _
          (List.mem_append_left _ (List.mem_map_of_mem Ev.progress h100))
    · intro hb'
      rw [hb'] at hb
      simp at hb

/-- Witness for C7: a two-tick uncancelled load reporting 50 then 100. -/
theorem progress_monotone_and_complete_before_load_witness :
    (reportedValues (initViewerTrace ⟨true, [50, 100], true⟩ none 1)).Pairwise (· ≤ ·) ∧
    reportedValues (initViewerTrace ⟨true, [50, 100], true⟩ none 1) = [50, 100] ∧
    ∃ l₁ l₂, initViewerTrace ⟨true, [50, 100], true⟩ none 1 = l₁ ++ Ev.loadCb :: l₂ ∧
      Ev.progress 100 ∈ l₁ := by
  have h := progress_monotone_and_complete_before_load ⟨true, [50, 100], true⟩ none 1
    rfl rfl (by norm_num) (by norm_num [List.getLast?])
  have h2 := h.2.1 rfl
  exact ⟨h.1, h2.1, h2.2⟩

/-! ## Mount-level lifecycle: sessions, handles and the `viewerRef` cell.

One mounted viewer runs a sequence of load sessions (one per run of the
init effect); handle `s` is the viewer constructed by session `s`.
`MState` records, per instant: the session whose effect is mounted and
not yet cleaned up (`active`), sessions with a load in flight
(`loading`), cancelled tokens (`abortedS`), constructed and started
handles, the handle currently published in `viewerRef.current`
(`published`), and handles whose `dispose()` has been called
(`disposeSig`).

`mstep` gives the effect of each event-loop task, with React's
guarantees as guards: a new effect body runs only after the previous
cleanup (`active = none`); a load continuation runs once per session and
— exactly as the checkpoint at line 130 / the catch block do — publishes
and starts only when its token is unaborted, disposing instead when it
is; the cleanup (lines 203-226) aborts the active session's token,
nulls `viewerRef.current` and signals disposal of the published handle. -/

structure MState where
  nextId : ℕ
  active : Option ℕ
  loading : List ℕ
  abortedS : List ℕ
  constructed : List ℕ
  started : List ℕ
  published : Option ℕ
  disposeSig : List ℕ
deriving DecidableEq

def mountInit : MState :=
  ⟨0, none, [], [], [], [], none, []⟩

inductive MEv where
  | initEffect
  | cleanup
  | loadDone (s : ℕ)
  | loadFail (s : ℕ)
deriving DecidableEq

def stepInitEffect (st : MState) : MState :=
  if st.active = none then
    { st with
        nextId := st.nextId + 1
        active := some st.nextId
        constructed := st.nextId :: st.constructed
        loading := st.nextId :: st.loading }
  else st

def stepCleanup (st : MState) : MState :=
  match st.active with
  | none => st
  | some s =>
    { st with
        active := none
        abortedS := s :: st.abortedS
        published := none
        disposeSig := st.published.toList ++ st.disposeSig }

def stepLoadDone (st : MState) (s : ℕ) : MState :=
  if s ∈ st.loading then
    if s ∈ st.abortedS then
      { st with loading := st.loading.erase s, disposeSig := s :: st.disposeSig }
    else
      { st with
          loading := st.loading.erase s
          started := s :: st.started
          published := some s }
  else st

def stepLoadFail (st : MState) (s : ℕ) : MState :=
  if s ∈ st.loading then
    { st with loading := st.loading.erase s, disposeSig := s :: st.disposeSig }
  else st

def mstep (st : MState) : MEv → MState
  | MEv.initEffect => stepInitEffect st
  | MEv.cleanup => stepCleanup st
  | MEv.loadDone s => stepLoadDone st s
  | MEv.loadFail s => stepLoadFail st s

def mrun (evs : List MEv) : MState :=
  evs.foldl mstep mountInit

/-- The inductive invariant of the mount machine. -/
structure MInv (st : MState) : Prop where
  pub_active : ∀ h, st.published = some h → st.active = some h
  pub_not_aborted : ∀ h, st.published = some h → h ∉ st.abortedS
  pub_started : ∀ h, st.published = some h → h ∈ st.started
  loading_owner : ∀ s ∈ st.loading, s ∈ st.abortedS ∨ st.active = some s
  loading_not_started : ∀ s ∈ st.loading, s ∉ st.started
  started_disposed : ∀ h ∈ st.started, st.published = some h ∨ h ∈ st.disposeSig
  started_lt : ∀ s ∈ st.started, s < st.nextId
  loading_lt : ∀ s ∈ st.loading, s < st.nextId
  loading_nodup : st.loading.Nodup

theorem minv_mountInit : MInv mountInit := by
  constructor <;> simp [mountInit]

theorem minv_stepInitEffect {st : MState} (hI : MInv st) : MInv (stepInitEffect st) := by
  by_cases hact : st.active = none
  · have hpub : st.published = none := by
      cases hp : st.published with
      | none => rfl
      | some h =>
        have h1 := hI.pub_active h hp
        rw [hact] at h1
        cases h1
    rw [stepInitEffect, if_pos hact]
    refine ⟨?_, ?_, ?_, ?_, ?_, ?_, ?_, ?_, ?_⟩
    · intro h hp
      simp only [] at hp
      rw [hpub] at hp
      cases hp
    · intro h hp
      simp only [] at hp
      rw [hpub] at hp
      cases hp
    · intro h hp
      simp only [] at hp
      rw [hpub] at hp
      cases hp
    · intro s hs
      simp only [List.mem_cons] at hs
      rcases hs with rfl | hs
      · right
        rfl
      · rcases hI.loading_owner s hs with h | h
        · left
          exact h
        · rw [hact] at h
          cases h
    · intro s hs
      simp only [List.mem_cons] at hs
      rcases hs with rfl | hs
      · intro hmem
        exact absurd (hI.started_lt _ hmem) (by omega)
      · exact hI.loading_not_started s hs
    · intro h hh
      rcases hI.started_disposed h hh with hp | hd
      · rw [hpub] at hp
        cases hp
      · right
        exact hd
    · intro s hs
      have := hI.started_lt s hs
      simp only []
      omega
    · intro s hs
      simp only [List.mem_cons] at hs
      simp only []
      rcases hs with rfl | hs
      · omega
      · have := hI.loading_lt s hs
        omega
    · refine List.nodup_cons.mpr ⟨?_, hI.loading_nodup⟩
      intro hmem
      exact absurd (hI.loading_lt _ hmem) (by omega)
  · rw [stepInitEffect, if_neg hact]
    exact hI

theorem minv_stepCleanup {st : MState} (hI : MInv st) : MInv (stepCleanup st) := by
  cases hact : st.active with
  | none =>
    rw [stepCleanup, hact]
    exact hI
  | some s =>
    simp only [stepCleanup, hact]
    refine ⟨?_, ?_, ?_, ?_, ?_, ?_, ?_, ?_, ?_⟩
    · intro h hp
      cases hp
    · intro h hp
      cases hp
    · intro h hp
      cases hp
    · intro s' hs'
      left
      rcases hI.loading_owner s' hs' with h | h
      · exact List.mem_cons_of_mem _ h
      · rw [hact] at h
        cases h
        exact List.mem_cons_self _ _
    · exact hI.loading_not_started
    · intro h hh
      right
      rcases hI.started_disposed h hh with hp | hd
      · rw [hp]
        simp
      · exact List.mem_append_right _ hd
    · exact hI.started_lt
    · exact hI.loading_lt
    · exact hI.loading_nodup

theorem minv_stepLoadDone {st : MState} (hI : MInv st) (s : ℕ) :
    MInv (stepLoadDone st s) := by
  by_cases hmem : s ∈ st.loading
  · by_cases hab : s ∈ st.abortedS
    · rw [stepLoadDone, if_pos hmem, if_pos hab]
      refine ⟨?_, ?_, ?_, ?_, ?_, ?_, ?_, ?_, ?_⟩
      · exact hI.pub_active
      · exact hI.pub_not_aborted
      · exact hI.pub_started
      · intro s' hs'
        exact hI.loading_owner s' (List.mem_of_mem_erase hs')
      · intro s' hs'
        exact hI.loading_not_started s' (List.mem_of_mem_erase hs')
      · intro h hh
        rcases hI.started_disposed h hh with hp | hd
        · left
          exact hp
        · right
          exact List.mem_cons_of_mem _ hd
      · exact hI.started_lt
      · intro s' hs'
        exact hI.loading_lt s' (List.mem_of_mem_erase hs')
      · exact hI.loading_nodup.erase s
    · have hactive : st.active = some s := by
        rcases hI.loading_owner s hmem with h | h
        · exact absurd h hab
        · exact h
      have hpub : st.published = none := by
        cases hp : st.published with
        | none => rfl
        | some h =>
          have h1 := hI.pub_active h hp
          rw [hactive] at h1
          cases h1
          exact absurd (hI.pub_started _ hp) (hI.loading_not_started _ hmem)
      rw [stepLoadDone, if_pos hmem, if_neg hab]
      refine ⟨?_, ?_, ?_, ?_, ?_, ?_, ?_, ?_, ?_⟩
      · intro h hp
        cases hp
        exact hactive
      · intro h hp
        cases hp
        exact hab
      · intro h hp
        cases hp
        exact List.mem_cons_self _ _
      · intro s' hs'
        exact hI.loading_owner s' (List.mem_of_mem_erase hs')
      · intro s' hs'
        have hs'' := (List.Nodup.mem_erase_iff hI.loading_nodup).mp hs'
        intro hmem'
        simp only [List.mem_cons] at hmem'
        rcases hmem' with rfl | hmem'
        · exact hs''.1 rfl
        · exact hI.loading_not_started s' hs''.2 hmem'
      · intro h hh
        simp only [List.mem_cons] at hh
        rcases hh with rfl | hh
        · left
          rfl
        · rcases hI.started_disposed h hh with hp | hd
          · rw [hpub] at hp
            cases hp
          · right
            exact hd
      · intro s' hs'
        simp only [List.mem_cons] at hs'
        rcases hs' with rfl | hs'
        · exact hI.loading_lt s' hmem
        · exact hI.started_lt s' hs'
      · intro s' hs'
        exact hI.loading_lt s' (List.mem_of_mem_erase hs')
      · exact hI.loading_nodup.erase s
  · rw [stepLoadDone, if_neg hmem]
    exact hI

theorem minv_stepLoadFail {st : MState} (hI : MInv st) (s : ℕ) :
    MInv (stepLoadFail st s) := by
  by_cases hmem : s ∈ st.loading
  · rw [stepLoadFail, if_pos hmem]
    refine ⟨?_, ?_, ?_, ?_, ?_, ?_, ?_, ?_, ?_⟩
    · exact hI.pub_active
    · exact hI.pub_not_aborted
    · exact hI.pub_started
    · intro s' hs'
      exact hI.loading_owner s' (List.mem_of_mem_erase hs')
    · intro s' hs'
      exact hI.loading_not_started s' (List.mem_of_mem_erase hs')
    · intro h hh
      rcases hI.started_disposed h hh with hp | hd
      · left
        exact hp
      · right
        exact List.mem_cons_of_mem _ hd
    · exact hI.started_lt
    · intro s' hs'
      exact hI.loading_lt s' (List.mem_of_mem_erase hs')
    · exact hI.loading_nodup.erase s
  · rw [stepLoadFail, if_neg hmem]
    exact hI

theorem minv_mstep {st : MState} (hI : MInv st) (e : MEv) : MInv (mstep st e) := by
  cases e with
  | initEffect => exact minv_stepInitEffect hI
  | cleanup => exact minv_stepCleanup hI
  | loadDone s => exact minv_stepLoadDone hI s
  | loadFail s => exact minv_stepLoadFail hI s

theorem minv_mrun (evs : List MEv) : MInv (mrun evs) := by
  suffices h : ∀ st, MInv st → MInv (evs.foldl mstep st) from h mountInit minv_mountInit
  induction evs with
  | nil => intro st h; exact h
  | cons e evs ih =>
    intro st h
    exact ih (mstep st e) (minv_mstep h e)

/-- C3: in every reachable mount state, (a) at most one handle is live
(started and currently published in `viewerRef.current`); (b) at most
one started handle has not been signalled for disposal; and (c) at the
instant a new session is still eligible to start its render loop
(loading, token unaborted), every previously started handle is already
unpublished and dispose-signalled — so two handles never render into the
container simultaneously. -/
theorem at_most_one_live_handle (evs : List MEv) :
    (∀ h1 h2,
      (h1 ∈ (mrun evs).started ∧ (mrun evs).published = some h1) →
      (h2 ∈ (mrun evs).started ∧ (mrun evs).published = some h2) → h1 = h2) ∧
    (∀ h1 h2, h1 ∈ (mrun evs).started → h2 ∈ (mrun evs).started →
      h1 ∉ (mrun evs).disposeSig → h2 ∉ (mrun evs).disposeSig → h1 = h2) ∧
    (∀ s, s ∈ (mrun evs).loading → s ∉ (mrun evs).abortedS →
      ∀ h ∈ (mrun evs).started,
        h ∈ (mrun evs).disposeSig ∧ (mrun evs).published ≠ some h) := by
  have hI := minv_mrun evs
  refine ⟨?_, ?_, ?_⟩
  · rintro h1 h2 ⟨-, hp1⟩ ⟨-, hp2⟩
    exact Option.some.inj (hp1.symm.trans hp2)
  · intro h1 h2 hs1 hs2 hd1 hd2
    rcases hI.started_disposed h1 hs1 with hp1 | hd
    · rcases hI.started_disposed h2 hs2 with hp2 | hd
      · exact Option.some.inj (hp1.symm.trans hp2)
      · exact absurd hd hd2
    · exact absurd hd hd1
  · intro s hs hab h hh
    have hactive : (mrun evs).active = some s := by
      rcases hI.loading_owner s hs with h' | h'
      · exact absurd h' hab
      · exact h'
    have hpubn : (mrun evs).published ≠ some h := by
      intro hp
      have h1 := hI.pub_active h hp
      rw [hactive] at h1
      cases Option.some.inj h1
      exact (hI.loading_not_started _ hs) hh
    refine ⟨?_, hpubn⟩
    rcases hI.started_disposed h hh with hp | hd
    · exact absurd hp hpubn
    · exact hd

/-- Witness for C3: after load, teardown, and re-initialization, the
superseded handle 0 is dispose-signalled and unpublished while session 1
is still loading. -/
theorem at_most_one_live_handle_witness :
    0 ∈ (mrun [MEv.initEffect, MEv.loadDone 0, MEv.cleanup, MEv.initEffect]).disposeSig ∧
    (mrun [MEv.initEffect, MEv.loadDone 0, MEv.cleanup, MEv.initEffect]).published ≠
      some 0 :=
  (at_most_one_live_handle [MEv.initEffect, MEv.loadDone 0, MEv.cleanup,
    MEv.initEffect]).2.2 1 (by decide) (by decide) 0 (by decide)

/-- Disposal outcomes of the external renderer's `dispose()` promise:
the benign DOM-removal rejection the library is known to raise, or any
other rejection. -/
inductive DisposeErr where
  | removeChild
  | otherErr
deriving DecidableEq

/-- The cleanup function (lines 203-226) as its ordered action trace:
`abortController.abort()` runs first; then, if a handle is published,
the ref is nulled and `dispose()` is called; the `.catch` handler
attached to the disposal promise swallows every rejection (at most a
debug log), emitting nothing — in particular no `onError`. -/
def cleanupRun (published : Option ℕ) (res : Except DisposeErr Unit) : List Ev :=
  Ev.abortEv ::
    (match published with
     | none => []
     | some _ =>
       [Ev.unpublishEv, Ev.disposeEv] ++
         (match res with
          | Except.ok _ => []
          | Except.error _ => []))

/-- C4: teardown cancels the session token before any other action,
disposes the published handle exactly when one exists, swallows every
disposal rejection (including the benign DOM-removal error) without
invoking `onError`, produces the same actions whatever the disposal
outcome, and never blocks the next re-initialization: after any cleanup
the next effect body activates a fresh session. -/
theorem teardown_cancel_first_and_swallow (pub : Option ℕ)
    (res : Except DisposeErr Unit) :
    (cleanupRun pub res).head? = some Ev.abortEv ∧
    (pub ≠ none →
      Ev.unpublishEv ∈ cleanupRun pub res ∧ Ev.disposeEv ∈ cleanupRun pub res) ∧
    (pub = none → Ev.disposeEv ∉ cleanupRun pub res) ∧
    Ev.errorCb ∉ cleanupRun pub res ∧
    (∀ res', cleanupRun pub res = cleanupRun pub res') ∧
    (∀ st : MState,
      (stepInitEffect (stepCleanup st)).active = some (stepCleanup st).nextId) := by
  refine ⟨?_, ?_, ?_, ?_, ?_, ?_⟩
  · rfl
  · intro hp
    cases pub with
    | none => exact absurd rfl hp
    | some h => cases res <;> simp [cleanupRun]
  · intro hp
    subst hp
    simp [cleanupRun]
  · cases pub <;> cases res <;> simp [cleanupRun]
  · intro res'
    cases pub <;> cases res <;> cases res' <;> rfl
  · intro st
    have hact : (stepCleanup st).active = none := by
      cases h : st.active <;> simp [stepCleanup, h]
    rw [stepInitEffect, if_pos hact]

/-- Witness for C4: a published handle whose disposal rejects with the
benign DOM-removal error: abort still comes first, the handle is
disposed, and no error callback fires. -/
theorem teardown_cancel_first_and_swallow_witness :
    (cleanupRun (some 3) (Except.error DisposeErr.removeChild)).head? =
      some Ev.abortEv ∧
    Ev.unpublishEv ∈ cleanupRun (some 3) (Except.error DisposeErr.removeChild) ∧
    Ev.disposeEv ∈ cleanupRun (some 3) (Except.error DisposeErr.removeChild) ∧
    Ev.errorCb ∉ cleanupRun (some 3) (Except.error DisposeErr.removeChild) := by
  have h := teardown_cancel_first_and_swallow (some 3)
    (Except.error DisposeErr.removeChild)
  have h2 := h.2.1 (by simp)
  exact ⟨h.1, h2.1, h2.2, h.2.2.2.1⟩

/-! ## The application shell (App.tsx) and the effect dependency array.

Reference identities of JS objects are modelled as numeric tokens.
`useCallback` with an empty dependency list returns the same function
reference on every render of a mount, so `handleLoad` and `handleError`
(App.tsx lines 16-23) and `updateFPS` (viewer lines 45-63, empty deps)
are per-mount constants.  `useMemo` (App.tsx lines 28-31) recomputes
`modelArray` — allocating a fresh list reference — exactly when the
`selectedModel` reference changed since the previous render, and
returns the cached reference otherwise. -/

structure MemoState where
  dep : Option ℕ
  val : ℕ
deriving DecidableEq

/-- One `useMemo` step: same dependency reference, same cached value;
changed dependency, freshly allocated value. -/
def stepMemo (fresh : ℕ) (st : MemoState) (d : Option ℕ) : MemoState :=
  if d = st.dep then st else ⟨d, fresh⟩

/-- The `(selectedModel, modelArray)` identity pair for each render of a
render sequence; fresh references are drawn from the render index, which
is strictly above every previously allocated value. -/
def memoTrace : MemoState → ℕ → List (Option ℕ) → List (Option ℕ × ℕ)
  | _, _, [] => []
  | st, i, d :: ds =>
    (d, (stepMemo i st d).val) :: memoTrace (stepMemo i st d) (i + 1) ds

def shellTrace : List (Option ℕ) → List (Option ℕ × ℕ)
  | [] => []
  | d :: ds => (d, 0) :: memoTrace ⟨d, 0⟩ 1 ds

theorem memoTrace_chain (ds : List (Option ℕ)) :
    ∀ (st : MemoState) (i : ℕ), st.val < i →
      List.Chain' (fun p q => q.2 = p.2 ↔ q.1 = p.1)
        ((st.dep, st.val) :: memoTrace st i ds) := by
  induction ds with
  | nil =>
    intro st i _
    simp [memoTrace]
  | cons d ds ih =>
    intro st i hv
    by_cases hd : d = st.dep
    · have hstep : stepMemo i st d = st := by
        simp [stepMemo, hd]
      simp only [memoTrace, hstep]
      refine List.chain'_cons.mpr ⟨⟨fun _ => hd, fun _ => rfl⟩, ?_⟩
      have h2 := ih st (i + 1) (by omega)
      rw [hd]
      exact h2
    · have hstep : stepMemo i st d = ⟨d, i⟩ := by
        simp [stepMemo, hd]
      simp only [memoTrace, hstep]
      refine List.chain'_cons.mpr ⟨⟨?_, ?_⟩, ?_⟩
      · intro hvi
        exact absurd hvi (by simp; omega)
      · intro hdd
        exact absurd hdd hd
      · exact ih ⟨d, i⟩ (i + 1) (by simp)

/-- C6: over any render sequence of the Shell, two consecutive renders
hand the viewer the referentially-identical `models` list if and only if
the selected model is referentially unchanged: the memoized list is
stable across unrelated re-renders and is a new reference exactly when
the selection changes. -/
theorem shell_models_reference_stability (ds : List (Option ℕ)) :
    (shellTrace ds).Chain' (fun p q => q.2 = p.2 ↔ q.1 = p.1) := by
  cases ds with
  | nil => simp [shellTrace]
  | cons d ds =>
    have h := memoTrace_chain ds ⟨d, 0⟩ 1 (by norm_num)
    simpa [shellTrace] using h

/-- The five-entry dependency array of the init effect
`[models, onLoad, onProgress, onError, updateFPS]` (line 227), by
reference identity. -/
structure ViewerDeps where
  modelsId : ℕ
  onLoadId : Option ℕ
  onProgressId : Option ℕ
  onErrorId : Option ℕ
  updateFPSId : ℕ
deriving DecidableEq

/-- React re-runs an effect on a re-render iff some entry of its
dependency array changed (Object.is per slot). -/
def effectRerun (prev curr : ViewerDeps) : Bool :=
  decide (prev ≠ curr)

/-- Lifecycle events of one re-render: when the effect re-runs, the
previous cleanup followed by the new body; when the dependencies are
unchanged, React skips both. -/
def renderStepEvents (prev curr : ViewerDeps) (cleanupEvs bodyEvs : List Ev) :
    List Ev :=
  if effectRerun prev curr then cleanupEvs ++ bodyEvs else []

/-- The dependency array as the Shell wires it (App.tsx lines 100-104):
`onLoad` and `onError` are `useCallback` constants of the App mount,
`onProgress` is not passed (undefined on every render), `updateFPS` is a
`useCallback` constant of the viewer mount. -/
def shellViewerDeps (cLoad cErr cFPS modelsId : ℕ) : ViewerDeps :=
  ⟨modelsId, some cLoad, none, some cErr, cFPS⟩

/-- C1: a re-render that passes the referentially-identical `models`
list (the container ref being a per-mount constant, not a dependency)
leaves the dependency array unchanged, so the init effect does not
re-run: no cleanup (no abort, no disposal) and no new construction —
the event trace of that render is empty. -/
theorem init_effect_skips_when_deps_stable (cLoad cErr cFPS m m' : ℕ)
    (cleanupEvs bodyEvs : List Ev) (hm : m = m') :
    effectRerun (shellViewerDeps cLoad cErr cFPS m)
      (shellViewerDeps cLoad cErr cFPS m') = false ∧
    renderStepEvents (shellViewerDeps cLoad cErr cFPS m)
      (shellViewerDeps cLoad cErr cFPS m') cleanupEvs bodyEvs = [] := by
  subst hm
  refine ⟨?_, ?_⟩
  · simp [effectRerun]
  · simp [renderStepEvents, effectRerun]

/-- Witness for C1: identical dependencies, empty render trace even with
nonempty pending cleanup and body. -/
theorem init_effect_skips_when_deps_stable_witness :
    effectRerun (shellViewerDeps 1 2 3 7) (shellViewerDeps 1 2 3 7) = false ∧
    renderStepEvents (shellViewerDeps 1 2 3 7) (shellViewerDeps 1 2 3 7)
      (teardownEvents true) [Ev.construct] = [] :=
  init_effect_skips_when_deps_stable 1 2 3 7 7 (teardownEvents true)
    [Ev.construct] rfl

end SplatViewer
